import Mathlib

/-
Verification of the `browser.Form` component (src/browser/form.go).

Shallow embedding notes:
- Go `url.Values` (a `map[string][]string`) is modelled as an association
  list `List (String × List String)` with unique-key discipline maintained
  by the operations; `Get`/`Set`/`Add` use first-occurrence semantics, which
  coincides with map semantics on lists with unique keys (all lists the
  code can build).  The list order also stands in for the (unspecified) Go
  map iteration order used by `Form.Submit`.
- The DOM selector engine (goquery) is opaque in the source; a scanned
  descendant element is modelled by its three relevant attributes, each an
  `Option String` so that an absent attribute is distinguished from an
  empty one, exactly as goquery's `Attr` presence flag does.
- The event dispatcher (`f.Do(event.Submit, f, values)`) is modelled as an
  abstract sink function `Form → Values → Option String`; `none` is a
  successful dispatch and `some e` the transport error the sink reports,
  propagated verbatim.  Each operation returns an `Outcome` carrying the
  list of payloads actually handed to the sink, so "no dispatch occurred"
  is observable.
- `strings.ToUpper` is modelled on the ASCII range via `Char.toUpper`.
-/

namespace Surf

/-- Go `url.Values`: an insertion-ordered multi-valued string map. -/
abbrev Values := List (String × List String)

namespace Values

/-- Go map lookup `v[key]` with its presence flag: `none` when the key is
absent, `some vals` when present (first occurrence). -/
def Get (v : Values) (k : String) : Option (List String) :=
  match v with
  | [] => none
  | (k', vals) :: rest => if k' = k then some vals else Get rest k

/-- Go `url.Values.Add`: `v[key] = append(v[key], value)` — appends to the
existing value list, or inserts a new singleton entry for an absent key. -/
def Add (v : Values) (k val : String) : Values :=
  match v with
  | [] => [(k, [val])]
  | (k', vals) :: rest =>
      if k' = k then (k', vals ++ [val]) :: rest
      else (k', vals) :: Add rest k val

/-- Go `url.Values.Set`: `v[key] = []string{value}` — replaces the entire
value list of an existing key, or inserts the entry for an absent key. -/
def Set (v : Values) (k val : String) : Values :=
  match v with
  | [] => [(k, [val])]
  | (k', vals) :: rest =>
      if k' = k then (k', [val]) :: rest
      else (k', vals) :: Set rest k val

/-- Every entry of the map carries at least one value. -/
def WellFormed (v : Values) : Prop :=
  ∀ p ∈ v, p.2 ≠ ([] : List String)

instance : DecidablePred WellFormed := fun v =>
  inferInstanceAs (Decidable (∀ p ∈ v, p.2 ≠ ([] : List String)))

end Values

/-- One descendant element matched by the `"input,button"` scan, reduced to
the three attributes `serializeForm` reads.  `none` models an absent
attribute (goquery `Attr` returning `ok = false`). -/
structure Element where
  name : Option String
  typ : Option String
  value : Option String
deriving DecidableEq, Repr

/-- The DOM subtree rooted at the form element: the descendants matched by
`sel.Find("input,button")` plus the form node's own two attributes. -/
structure FormSelection where
  elements : List Element
  methodAttr : Option String
  actionAttr : Option String
deriving DecidableEq, Repr

/-- Errors of the `errors` package surfaced by this module.
Modelled from the spec: the `errors` package (`NewElementNotFound`,
`NewInvalidFormValue`) is not under src/; per the spec both kinds carry a
human-readable message naming the offending field or button, so each
constructor records that offending name. -/
inductive FormError where
  | elementNotFound (name : String)
  | invalidFormValue (name : String)
deriving DecidableEq, Repr

/-- Model of Go `strings.ToUpper` on the ASCII range used by the claims,
written over the character list so it evaluates by kernel reduction. -/
def goToUpper (s : String) : String := String.mk (s.data.map Char.toUpper)

/-- Modelled from the spec: `attrOrDefault` lives in browser.go, which is
not under src/; per the spec it yields the attribute's value when the
attribute is present and the supplied default otherwise. -/
def attrOrDefault (attr : Option String) (dflt : String) : String :=
  attr.getD dflt

/-- `formAttributes` (form.go:158-162): uppercased method defaulting to
`"GET"`, and the raw action attribute defaulting to `""`.  The source then
runs `url.Parse` and discards its error; parsing internals are outside the
claims, so the action is kept as the raw string handed to `url.Parse`. -/
def formAttributes (s : FormSelection) : String × String :=
  (goToUpper (attrOrDefault s.methodAttr ("GET")),
   attrOrDefault s.actionAttr (""))

/-- The body of the `input.Each` closure in `serializeForm`
(form.go:132-152): classify one scanned element into the accumulated
`(fields, buttons)` pair. -/
def serializeStep (acc : Values × Values) (s : Element) : Values × Values :=
  match s.name with
  | some name =>
      match s.typ with
      | some typ =>
          if typ = "submit" then
            match s.value with
            | some val => (acc.1, Values.Add acc.2 name val)
            | none => (acc.1, Values.Add acc.2 name (""))
          else
            match s.value with
            | some val => (Values.Add acc.1 name val, acc.2)
            | none => acc
      | none => acc
  | none => acc

/-- `serializeForm` (form.go:124-155): scan the matched descendants in DOM
order, bucketing them into field entries and button entries. -/
def serializeForm (input : List Element) : Values × Values :=
  if input.length = 0 then (([] : Values), ([] : Values))
  else input.foldl serializeStep (([] : Values), ([] : Values))

/-- The `Form` struct (form.go:37-45).  The `event.Dispatcher` field is
replaced by the sink parameter threaded through the submission operations;
`action` holds the string given to `url.Parse`. -/
structure Form where
  selection : FormSelection
  method : String
  action : String
  fields : Values
  buttons : Values
deriving DecidableEq, Repr

/-- The submission sink behind `f.Do(event.Submit, f, values)`: receives
the source form and the payload and reports `none` on success or `some e`
for a transport error, which the module propagates verbatim. -/
abbrev Sink := Form → Values → Option String

/-- Result of a submission-related operation. -/
inductive SendResult where
  | ok (sinkReport : Option String)
  | formErr (e : FormError)
  | panicked
deriving DecidableEq, Repr

/-- Observable outcome of an operation: its result, the payloads handed to
the dispatch sink (in order), and the form state afterwards. -/
structure Outcome where
  result : SendResult
  dispatched : List Values
  form : Form
deriving DecidableEq, Repr

/-- `NewForm` (form.go:48-60). -/
def NewForm (sel : FormSelection) : Form :=
  let fb := serializeForm sel.elements
  let ma := formAttributes sel
  { selection := sel
    method := ma.1
    action := ma.2
    fields := fb.1
    buttons := fb.2 }

/-- `Form.Method` (form.go:63-65). -/
def Form.Method (f : Form) : String := f.method

/-- `Form.Action` (form.go:68-70). -/
def Form.Action (f : Form) : String := f.action

/-- `Form.Input` (form.go:73-80): strict update of an existing field.  Go
returns only the error and mutates in place; here the resulting form state
is returned alongside. -/
def Form.Input (f : Form) (name value : String) : Option FormError × Form :=
  if (Values.Get f.fields name).isSome then
    (none, { f with fields := Values.Set f.fields name value })
  else
    (some (FormError.elementNotFound name), f)

/-- `Form.send` (form.go:109-119): copy the field entries, set the button
pair when a button name was supplied (`buttonName != ""`), dispatch. -/
def Form.send (f : Form) (sink : Sink) (buttonName buttonValue : String) :
    Outcome :=
  let values := f.fields
  let values :=
    if buttonName ≠ "" then Values.Set values buttonName buttonValue
    else values
  { result := SendResult.ok (sink f values)
    dispatched := [values]
    form := f }

/-- `Form.Click` (form.go:95-101).  The source indexes
`f.buttons[button][0]` unconditionally after the membership test; an empty
value list would panic, modelled by `SendResult.panicked`. -/
def Form.Click (f : Form) (sink : Sink) (button : String) : Outcome :=
  match Values.Get f.buttons button with
  | none =>
      { result := SendResult.formErr (FormError.invalidFormValue button)
        dispatched := []
        form := f }
  | some vals =>
      match vals with
      | [] => { result := SendResult.panicked, dispatched := [], form := f }
      | v :: _ => f.send sink button v

/-- `Form.Submit` (form.go:85-92): click the first button the map iteration
yields (here: list order), or send without a button pair when there are no
buttons. -/
def Form.Submit (f : Form) (sink : Sink) : Outcome :=
  match f.buttons with
  | [] => f.send sink ("") ("")
  | (name, _) :: _ => f.Click sink name

/-- `Form.Find` (form.go:104-106): re-query the retained subtree.  The
goquery selector engine is opaque; it enters as the query capability. -/
def Form.Find (f : Form) (query : FormSelection → String → List Element)
    (expr : String) : List Element :=
  query f.selection expr

/-! Concrete fixtures used by witnesses and the counterexample. -/

/-- A sink that always reports success. -/
def cSink : Sink := fun _ _ => none

/-- A form with one field and no buttons. -/
def cform0 : Form :=
  { selection := { elements := [], methodAttr := none, actionAttr := none }
    method := "GET"
    action := ""
    fields := [("q", ["x"])]
    buttons := [] }

/-- A form with one field and one button named `go`. -/
def cform1 : Form :=
  { selection := { elements := [], methodAttr := none, actionAttr := none }
    method := "GET"
    action := ""
    fields := [("q", ["x"])]
    buttons := [("go", ["1"])] }

/-- A form subtree holding a single submit element whose `name` attribute is
present but empty — `serializeForm` records it under the key `""`. -/
def cselC1 : FormSelection :=
  { elements := [{ name := some (""), typ := some ("submit"), value := some ("v") }]
    methodAttr := none
    actionAttr := none }

/-- A form subtree with a `method` attribute of `"post"`. -/
def cselPost : FormSelection :=
  { elements := [], methodAttr := some ("post"), actionAttr := none }

/-- A form subtree with no `method` attribute. -/
def cselNone : FormSelection :=
  { elements := [], methodAttr := none, actionAttr := none }

/-- A form subtree with one ordinary submit button. -/
def cselBtn : FormSelection :=
  { elements := [{ name := some ("go"), typ := some ("submit"), value := some ("1") }]
    methodAttr := none
    actionAttr := none }

/-- A named submit element with no `value` attribute. -/
def eSub : Element := { name := some ("b"), typ := some ("submit"), value := none }

/-- A named submit element with a `value` attribute. -/
def eSubV : Element := { name := some ("b"), typ := some ("submit"), value := some ("ok") }

/-- A named element with no `type` attribute. -/
def eNoTyp : Element := { name := some ("x"), typ := none, value := some ("v") }

/-- A named text element with no `value` attribute. -/
def eText : Element := { name := some ("t"), typ := some ("text"), value := none }

/-- A named text element with a `value` attribute. -/
def eTextV : Element := { name := some ("t"), typ := some ("text"), value := some ("w") }

/-! Helper lemmas about `Values` operations. -/

theorem Values.Get_Set_self (v : Values) (k val : String) :
    Values.Get (Values.Set v k val) k = some [val] := by
  induction v with
  | nil => simp [Values.Set, Values.Get]
  | cons p rest ih =>
      obtain ⟨k', vals⟩ := p
      by_cases h : k' = k
      · simp [Values.Set, Values.Get, h]
      · simp [Values.Set, Values.Get, h, ih]

theorem Values.Get_Set_ne (v : Values) (k val k' : String) (h : k' ≠ k) :
    Values.Get (Values.Set v k val) k' = Values.Get v k' := by
  induction v with
  | nil => simp [Values.Set, Values.Get, Ne.symm h]
  | cons p rest ih =>
      obtain ⟨k0, vals⟩ := p
      by_cases h0 : k0 = k
      · subst h0
        simp [Values.Set, Values.Get, Ne.symm h]
      · simp [Values.Set, Values.Get, h0, ih]

theorem Values.Get_Add_self (v : Values) (k val : String) :
    Values.Get (Values.Add v k val) k =
      some ((Values.Get v k).getD ([] : List String) ++ [val]) := by
  induction v with
  | nil => simp [Values.Add, Values.Get]
  | cons p rest ih =>
      obtain ⟨k', vals⟩ := p
      by_cases h : k' = k
      · simp [Values.Add, Values.Get, h]
      · simp [Values.Add, Values.Get, h, ih]

theorem Values.Add_ne (v : Values) (k val : String) :
    Values.Add v k val ≠ v := by
  induction v with
  | nil => simp [Values.Add]
  | cons p rest ih =>
      obtain ⟨k', vals⟩ := p
      by_cases h : k' = k
      · simp only [Values.Add, if_pos h]
        intro heq
        have : vals ++ [val] = vals := (Prod.mk.injEq .. ▸ (List.cons.injEq .. ▸ heq).1).2
        simpa using congrArg List.length this
      · simp only [Values.Add, if_neg h]
        intro heq
        exact ih (List.cons.injEq .. ▸ heq).2

theorem Values.WellFormed_Add (v : Values) (k val : String)
    (h : Values.WellFormed v) : Values.WellFormed (Values.Add v k val) := by
  induction v with
  | nil => intro p hp; simp [Values.Add] at hp; simp [hp]
  | cons q rest ih =>
      obtain ⟨k', vals⟩ := q
      by_cases hk : k' = k
      · intro p hp
        simp only [Values.Add, if_pos hk, List.mem_cons] at hp
        rcases hp with hp | hp
        · simp [hp]
        · exact h p (List.mem_cons_of_mem _ hp)
      · intro p hp
        simp only [Values.Add, if_neg hk, List.mem_cons] at hp
        rcases hp with hp | hp
        · exact hp ▸ h _ (List.mem_cons_self ..)
        · exact ih (fun q hq => h q (List.mem_cons_of_mem _ hq)) p hp

theorem Values.WellFormed_Set (v : Values) (k val : String)
    (h : Values.WellFormed v) : Values.WellFormed (Values.Set v k val) := by
  induction v with
  | nil => intro p hp; simp [Values.Set] at hp; simp [hp]
  | cons q rest ih =>
      obtain ⟨k', vals⟩ := q
      by_cases hk : k' = k
      · intro p hp
        simp only [Values.Set, if_pos hk, List.mem_cons] at hp
        rcases hp with hp | hp
        · simp [hp]
        · exact h p (List.mem_cons_of_mem _ hp)
      · intro p hp
        simp only [Values.Set, if_neg hk, List.mem_cons] at hp
        rcases hp with hp | hp
        · exact hp ▸ h _ (List.mem_cons_self ..)
        · exact ih (fun q hq => h q (List.mem_cons_of_mem _ hq)) p hp

theorem Values.Get_WellFormed (v : Values) (k : String) (vals : List String)
    (hw : Values.WellFormed v) (hg : Values.Get v k = some vals) :
    vals ≠ ([] : List String) := by
  induction v with
  | nil => simp [Values.Get] at hg
  | cons p rest ih =>
      obtain ⟨k', vs⟩ := p
      by_cases h : k' = k
      · simp only [Values.Get, if_pos h, Option.some.injEq] at hg
        exact hg ▸ hw _ (List.mem_cons_self ..)
      · simp only [Values.Get, if_neg h] at hg
        exact ih (fun q hq => hw q (List.mem_cons_of_mem _ hq)) hg

/-! Helper lemmas about the form operations. -/

theorem serializeForm_eq_foldl (els : List Element) :
    serializeForm els = els.foldl serializeStep (([] : Values), ([] : Values)) := by
  cases els <;> simp [serializeForm]

theorem serializeStep_wf (acc : Values × Values) (e : Element)
    (h1 : Values.WellFormed acc.1) (h2 : Values.WellFormed acc.2) :
    Values.WellFormed (serializeStep acc e).1 ∧
      Values.WellFormed (serializeStep acc e).2 := by
  obtain ⟨fs, bs⟩ := acc
  cases hn : e.name with
  | none => simpa [serializeStep, hn] using ⟨h1, h2⟩
  | some n =>
      cases ht : e.typ with
      | none => simpa [serializeStep, hn, ht] using ⟨h1, h2⟩
      | some t =>
          by_cases hs : t = "submit"
          · cases hv : e.value with
            | none =>
                simpa [serializeStep, hn, ht, hs, hv] using
                  ⟨h1, Values.WellFormed_Add bs n ("") h2⟩
            | some v =>
                simpa [serializeStep, hn, ht, hs, hv] using
                  ⟨h1, Values.WellFormed_Add bs n v h2⟩
          · cases hv : e.value with
            | none => simpa [serializeStep, hn, ht, hs, hv] using ⟨h1, h2⟩
            | some v =>
                simpa [serializeStep, hn, ht, hs, hv] using
                  ⟨Values.WellFormed_Add fs n v h1, h2⟩

theorem foldl_serializeStep_wf (els : List Element) (acc : Values × Values)
    (h1 : Values.WellFormed acc.1) (h2 : Values.WellFormed acc.2) :
    Values.WellFormed (els.foldl serializeStep acc).1 ∧
      Values.WellFormed (els.foldl serializeStep acc).2 := by
  induction els generalizing acc with
  | nil => exact ⟨h1, h2⟩
  | cons e rest ih =>
      have h := serializeStep_wf acc e h1 h2
      simpa [List.foldl_cons] using ih (serializeStep acc e) h.1 h.2

theorem Form.send_form (f : Form) (sink : Sink) (n v : String) :
    (f.send sink n v).form = f := by
  simp [Form.send]

theorem Form.Click_form (f : Form) (sink : Sink) (b : String) :
    (f.Click sink b).form = f := by
  unfold Form.Click
  cases Values.Get f.buttons b with
  | none => rfl
  | some vals => cases vals <;> simp [Form.send_form]

theorem Form.Submit_form (f : Form) (sink : Sink) :
    (f.Submit sink).form = f := by
  unfold Form.Submit
  cases h : f.buttons with
  | nil => exact Form.send_form ..
  | cons p rest => exact Form.Click_form ..

/-! The claims. -/

/-- Claim C1 fails as stated: the button name `""` may be a key of
`buttons` (a present-but-empty `name` attribute on a submit element puts it
there), yet `send` attaches the button pair only when the name is nonempty.
On the form built from `cselC1`, whose buttons map is `[("", ["v"])]`,
`Click ""` succeeds but dispatches the bare fields copy `[]` instead of the
payload with the entry under `""` set to `"v"` that the claim requires. -/
theorem claimC1_counterexample :
    Values.Get (NewForm cselC1).buttons ("") = some ["v"] ∧
    ((NewForm cselC1).Click cSink ("")).dispatched = [([] : Values)] ∧
    ((NewForm cselC1).Click cSink ("")).dispatched ≠
      [Values.Set (NewForm cselC1).fields ("") ("v")] := by
  refine ⟨by decide, by decide, by decide⟩

/-- Claim C1 (amended): for every form and every NONEMPTY button name `b`
that is a key of `buttons`, `Click b` dispatches exactly one payload,
namely the fields copy with the single entry under `b` set (overwriting or
adding) to the first recorded value `buttons[b][0]`, returns the dispatch
sink's report, and leaves the form unchanged. -/
theorem claimC1 (f : Form) (sink : Sink) (b v : String) (vs : List String)
    (hb : Values.Get f.buttons b = some (v :: vs)) (hne : b ≠ "") :
    f.Click sink b =
      { result := SendResult.ok (sink f (Values.Set f.fields b v))
        dispatched := [Values.Set f.fields b v]
        form := f } ∧
    Values.Get (Values.Set f.fields b v) b = some [v] ∧
    ∀ k, k ≠ b → Values.Get (Values.Set f.fields b v) k = Values.Get f.fields k := by
  refine ⟨?_, Values.Get_Set_self .., fun k hk => Values.Get_Set_ne f.fields b v k hk⟩
  simp [Form.Click, hb, Form.send, hne]

/-- Witness for C1 at a concrete form: clicking `go` on a form with fields
`q=x` and button `go=1` dispatches `q=x, go=1`. -/
theorem claimC1_witness :
    cform1.Click cSink ("go") =
      { result := SendResult.ok none
        dispatched := [[("q", ["x"]), ("go", ["1"])]]
        form := cform1 } := by
  have h := (claimC1 cform1 cSink ("go") ("1") [] (by decide) (by decide)).1
  rw [h]
  decide

/-- Claim C2: `Input name value` replaces the whole value list of an
existing field `name` with exactly `[value]`, leaving every other field
untouched; on an unknown `name` it fails with `ElementNotFound` naming the
field and leaves the form (hence `fields`) completely unchanged, so no new
entry is ever created. -/
theorem claimC2 (f : Form) (name value : String) :
    ((Values.Get f.fields name).isSome →
        f.Input name value =
          (none, { f with fields := Values.Set f.fields name value }) ∧
        Values.Get ((f.Input name value).2).fields name = some [value] ∧
        ∀ k, k ≠ name →
          Values.Get ((f.Input name value).2).fields k =
            Values.Get f.fields k) ∧
    (Values.Get f.fields name = none →
        f.Input name value = (some (FormError.elementNotFound name), f)) := by
  constructor
  · intro h
    refine ⟨by simp [Form.Input, h], ?_, ?_⟩
    · simp [Form.Input, h, Values.Get_Set_self]
    · intro k hk
      simp [Form.Input, h, Values.Get_Set_ne f.fields name value k hk]
  · intro h
    simp [Form.Input, h]

/-- Witness for C2: `Input q hello` on `cform1` yields exactly
`fields[q] = [hello]`; `Input missing x` fails with `ElementNotFound`
and returns the form unchanged. -/
theorem claimC2_witness :
    Values.Get ((cform1.Input ("q") ("hello")).2).fields ("q") = some ["hello"] ∧
    cform1.Input ("missing") ("x") =
      (some (FormError.elementNotFound ("missing")), cform1) :=
  ⟨((claimC2 cform1 ("q") ("hello")).1 (by decide)).2.1,
   (claimC2 cform1 ("missing") ("x")).2 (by decide)⟩

/-- Claim C3: `Click b` on an unknown button name fails with
`InvalidFormValue` naming the button, hands nothing to the dispatch sink,
and returns the form unchanged (fields and buttons included). -/
theorem claimC3 (f : Form) (sink : Sink) (b : String)
    (h : Values.Get f.buttons b = none) :
    f.Click sink b =
      { result := SendResult.formErr (FormError.invalidFormValue b)
        dispatched := []
        form := f } := by
  simp [Form.Click, h]

/-- Witness for C3: clicking the absent button `nope` on `cform1`. -/
theorem claimC3_witness :
    cform1.Click cSink ("nope") =
      { result := SendResult.formErr (FormError.invalidFormValue ("nope"))
        dispatched := []
        form := cform1 } :=
  claimC3 cform1 cSink ("nope") (by decide)

/-- Claim C4: `Submit` on a form with an empty buttons mapping dispatches
exactly the fields copy, with no button pair and no extra key added. -/
theorem claimC4 (f : Form) (sink : Sink) (h : f.buttons = ([] : Values)) :
    f.Submit sink =
      { result := SendResult.ok (sink f f.fields)
        dispatched := [f.fields]
        form := f } := by
  simp [Form.Submit, h, Form.send]

/-- Witness for C4: submitting the buttonless `cform0` dispatches `q=x`. -/
theorem claimC4_witness :
    cform0.Submit cSink =
      { result := SendResult.ok none
        dispatched := [[("q", ["x"])]]
        form := cform0 } := by
  have h := claimC4 cform0 cSink (by decide)
  rw [h]
  decide

/-- Claim C5: `Submit` on a form with at least one button returns the
result of `Click b` for some button name `b` present in the buttons
mapping, the choice being the first entry in iteration order. -/
theorem claimC5 (f : Form) (sink : Sink) (h : f.buttons ≠ ([] : Values)) :
    (∃ b, (Values.Get f.buttons b).isSome ∧ f.Submit sink = f.Click sink b) ∧
    (∀ b vs rest, f.buttons = (b, vs) :: rest →
        f.Submit sink = f.Click sink b) := by
  constructor
  · match hb : f.buttons with
    | [] => exact absurd hb h
    | (name, vals) :: rest =>
        refine ⟨name, ?_, ?_⟩
        · simp [Values.Get, hb]
        · simp [Form.Submit, hb]
  · intro b vs rest hb
    simp [Form.Submit, hb]

/-- Witness for C5: on `cform1`, whose sole button is `go`, `Submit`
coincides with `Click go`. -/
theorem claimC5_witness :
    cform1.Submit cSink = cform1.Click cSink ("go") :=
  (claimC5 cform1 cSink (by decide)).2 ("go") (["1"]) ([]) (by decide)

/-- Claim C6: at any point of the scan, an element adds a button entry iff
it has both a `name` attribute and a `type` attribute equal to `"submit"`;
a named element with no `type` contributes to neither mapping; and a named
element with a non-`"submit"` type contributes to `fields` iff its `value`
attribute is present. -/
theorem claimC6 (fs bs : Values) (e : Element) :
    (∀ els, serializeForm (els ++ [e]) = serializeStep (serializeForm els) e) ∧
    ((serializeStep (fs, bs) e).2 ≠ bs ↔
        e.name.isSome ∧ e.typ = some ("submit")) ∧
    (e.name.isSome → e.typ = none → serializeStep (fs, bs) e = (fs, bs)) ∧
    (∀ n t, e.name = some n → e.typ = some t → t ≠ "submit" →
        ((serializeStep (fs, bs) e).1 ≠ fs ↔ e.value.isSome)) := by
  refine ⟨?_, ?_, ?_, ?_⟩
  · intro els
    rw [serializeForm_eq_foldl, serializeForm_eq_foldl, List.foldl_append]
    rfl
  · cases hn : e.name with
    | none => simp [serializeStep, hn]
    | some n =>
        cases ht : e.typ with
        | none => simp [serializeStep, hn, ht]
        | some t =>
            by_cases hs : t = "submit"
            · subst hs
              cases hv : e.value with
              | none => simp [serializeStep, hn, ht, hv, Values.Add_ne]
              | some v => simp [serializeStep, hn, ht, hv, Values.Add_ne]
            · cases hv : e.value with
              | none => simp [serializeStep, hn, ht, hs, hv]
              | some v => simp [serializeStep, hn, ht, hs, hv]
  · intro hname htyp
    cases hn : e.name with
    | none => simp [serializeStep, hn]
    | some n => simp [serializeStep, hn, htyp]
  · intro n t hn ht hs
    cases hv : e.value with
    | none => simp [serializeStep, hn, ht, hs, hv]
    | some v => simp [serializeStep, hn, ht, hs, hv, Values.Add_ne]

/-- Witness for C6: on an empty accumulator, a valueless submit element
adds a button entry; a named element lacking a `type` changes nothing; a
valueless text element adds no field while a valued one does. -/
theorem claimC6_witness :
    (serializeStep (([] : Values), ([] : Values)) eSub).2 ≠ ([] : Values) ∧
    serializeStep (([] : Values), ([] : Values)) eNoTyp =
      (([] : Values), ([] : Values)) ∧
    ¬ ((serializeStep (([] : Values), ([] : Values)) eText).1 ≠ ([] : Values)) ∧
    (serializeStep (([] : Values), ([] : Values)) eTextV).1 ≠ ([] : Values) := by
  refine ⟨(claimC6 [] [] eSub).2.1.mpr (by decide),
          (claimC6 [] [] eNoTyp).2.2.1 (by decide) (by decide),
          ?_,
          ((claimC6 [] [] eTextV).2.2.2 ("t") ("text")
            (by decide) (by decide) (by decide)).mpr (by decide)⟩
  intro hne
  exact absurd (((claimC6 [] [] eText).2.2.2 ("t") ("text")
    (by decide) (by decide) (by decide)).mp hne) (by decide)

/-- Claim C7: a submit element with a `value` contributes that exact value
to `buttons[name]`; one without a `value` is recorded there as the empty
string rather than omitted; a non-submit named+typed element with a
`value` has it appended at the end of `fields[name]`, preserving scan
order across duplicate names. -/
theorem claimC7 (fs bs : Values) (e : Element) (n : String)
    (hn : e.name = some n) :
    (∀ v, e.typ = some ("submit") → e.value = some v →
        serializeStep (fs, bs) e = (fs, Values.Add bs n v) ∧
        Values.Get (Values.Add bs n v) n =
          some ((Values.Get bs n).getD ([] : List String) ++ [v])) ∧
    (e.typ = some ("submit") → e.value = none →
        serializeStep (fs, bs) e = (fs, Values.Add bs n ("")) ∧
        Values.Get (Values.Add bs n ("")) n =
          some ((Values.Get bs n).getD ([] : List String) ++ [""])) ∧
    (∀ t v, e.typ = some t → t ≠ "submit" → e.value = some v →
        serializeStep (fs, bs) e = (Values.Add fs n v, bs) ∧
        Values.Get (Values.Add fs n v) n =
          some ((Values.Get fs n).getD ([] : List String) ++ [v])) := by
  refine ⟨?_, ?_, ?_⟩
  · intro v ht hv
    exact ⟨by simp [serializeStep, hn, ht, hv], Values.Get_Add_self ..⟩
  · intro ht hv
    exact ⟨by simp [serializeStep, hn, ht, hv], Values.Get_Add_self ..⟩
  · intro t v ht hs hv
    exact ⟨by simp [serializeStep, hn, ht, hs, hv], Values.Get_Add_self ..⟩

/-- Witness for C7: a valued submit element records `b=ok`, a valueless one
records `b=` (empty string), and a valued text element records `t=w`. -/
theorem claimC7_witness :
    serializeStep (([] : Values), ([] : Values)) eSubV =
      (([] : Values), [("b", ["ok"])]) ∧
    serializeStep (([] : Values), ([] : Values)) eSub =
      (([] : Values), [("b", [""])]) ∧
    serializeStep (([] : Values), ([] : Values)) eTextV =
      ([("t", ["w"])], ([] : Values)) := by
  have h1 := ((claimC7 [] [] eSubV ("b") (by decide)).1 ("ok")
    (by decide) (by decide)).1
  have h2 := ((claimC7 [] [] eSub ("b") (by decide)).2.1
    (by decide) (by decide)).1
  have h3 := ((claimC7 [] [] eTextV ("t") (by decide)).2.2 ("text") ("w")
    (by decide) (by decide) (by decide)).1
  exact ⟨by rw [h1]; decide, by rw [h2]; decide, by rw [h3]; decide⟩

/-- Claim C8: construction is total — `NewForm` always returns a form whose
state is fully derived from the subtree, absent attributes degrading to
defaults — and `Method` yields `"GET"` when the `method` attribute is
absent and the attribute's value uppercased otherwise. -/
theorem claimC8 (sel : FormSelection) :
    ((NewForm sel).fields = (serializeForm sel.elements).1 ∧
     (NewForm sel).buttons = (serializeForm sel.elements).2) ∧
    (sel.methodAttr = none → (NewForm sel).Method = "GET") ∧
    (∀ v, sel.methodAttr = some v → (NewForm sel).Method = goToUpper v) := by
  have hm : (NewForm sel).Method =
      goToUpper (attrOrDefault sel.methodAttr ("GET")) := rfl
  refine ⟨⟨rfl, rfl⟩, ?_, ?_⟩
  · intro h
    rw [hm, h]
    decide
  · intro v h
    rw [hm, h]
    rfl

/-- Witness for C8: a `method="post"` attribute yields `"POST"` and an
absent one yields `"GET"`. -/
theorem claimC8_witness :
    (NewForm cselPost).Method = "POST" ∧ (NewForm cselNone).Method = "GET" := by
  have h1 := (claimC8 cselPost).2.2 ("post") (by decide)
  have h2 := (claimC8 cselNone).2.1 (by decide)
  exact ⟨by rw [h1]; decide, h2⟩

/-- Claim C9: `Click`, `Submit` and the internal `send` leave the form —
fields and buttons included — unchanged; `Input` never touches `buttons`;
hence `Method`, `Action` and `Find` results survive submissions, and a
repeated `Submit` re-dispatches independently with the same outcome. -/
theorem claimC9 (f : Form) (sink : Sink) (b n v expr : String)
    (query : FormSelection → String → List Element) :
    (f.Click sink b).form = f ∧
    (f.Submit sink).form = f ∧
    (f.send sink n v).form = f ∧
    ((f.Input n v).2).buttons = f.buttons ∧
    ((f.Click sink b).form).Method = f.Method ∧
    ((f.Click sink b).form).Action = f.Action ∧
    ((f.Submit sink).form).Find query expr = f.Find query expr ∧
    ((f.Submit sink).form).Submit sink = f.Submit sink := by
  have hc := Form.Click_form f sink b
  have hs := Form.Submit_form f sink
  refine ⟨hc, hs, Form.send_form .., ?_,
    by rw [hc], by rw [hc], by rw [hs], by rw [hs]⟩
  unfold Form.Input
  by_cases h : (Values.Get f.fields n).isSome <;> simp [h]

/-- Claim C10: construction only creates entries carrying at least one
value, `Input` preserves that invariant, and therefore the
`f.buttons[button][0]` access inside `Click` on a known button never
indexes out of bounds. -/
theorem claimC10 :
    (∀ els : List Element,
        Values.WellFormed (serializeForm els).1 ∧
        Values.WellFormed (serializeForm els).2) ∧
    (∀ (f : Form) (nm vl : String),
        Values.WellFormed f.fields →
          Values.WellFormed ((f.Input nm vl).2).fields) ∧
    (∀ (f : Form) (sink : Sink) (b : String),
        Values.WellFormed f.buttons →
          (f.Click sink b).result ≠ SendResult.panicked) := by
  refine ⟨?_, ?_, ?_⟩
  · intro els
    rw [serializeForm_eq_foldl]
    exact foldl_serializeStep_wf els ([], [])
      (fun p hp => absurd hp (List.not_mem_nil p))
      (fun p hp => absurd hp (List.not_mem_nil p))
  · intro f nm vl hw
    unfold Form.Input
    by_cases h : (Values.Get f.fields nm).isSome
    · simpa [h] using Values.WellFormed_Set f.fields nm vl hw
    · simpa [h] using hw
  · intro f sink b hw
    unfold Form.Click
    cases hg : Values.Get f.buttons b with
    | none => simp
    | some vals =>
        cases vals with
        | nil => exact absurd rfl (Values.Get_WellFormed f.buttons b ([]) hw hg)
        | cons v rest => simp [Form.send]

/-- Witness for C10: clicking the sole button of a freshly constructed form
does not hit the out-of-bounds branch. -/
theorem claimC10_witness :
    ((NewForm cselBtn).Click cSink ("go")).result ≠ SendResult.panicked :=
  claimC10.2.2 (NewForm cselBtn) cSink ("go") (by decide)

end Surf
